import Mathlib

/-!
Verification of the metadata-extraction core of the BL3 ModCabinet sorter
(`bl3cabinetsorter/app.py`).  Python strings are modelled as lists of
characters (`PyStr`); every definition below is a direct translation of the
corresponding Python function, with Python truthiness, `str.strip`,
`str.startswith`, substring tests and the regex searches spelled out
explicitly.
-/

abbrev PyStr := List Char

/-- Python `str.startswith` on character lists: first argument is the pattern. -/
def startsWith : PyStr → PyStr → Bool
  | [], _ => true
  | _ :: _, [] => false
  | a :: as, b :: bs => a = b && startsWith as bs

/-- Python substring test (`needle in hay`). -/
def containsSub (needle : PyStr) : PyStr → Bool
  | [] => startsWith needle []
  | c :: rest => startsWith needle (c :: rest) || containsSub needle rest

/-- Characters stripped by Python `str.strip()` with no argument. -/
def isSpaceChar (c : Char) : Bool :=
  c = ' ' || c = '\t' || c = '\n' || c = '\r' || c = '\x0b' || c = '\x0c'

/-- Python `str.strip(chars)`: drop characters satisfying `p` from both ends. -/
def stripEnds (p : Char → Bool) (s : PyStr) : PyStr :=
  (((s.dropWhile p).reverse).dropWhile p).reverse

/-- Python `str.strip()` (whitespace strip). -/
def pyStrip (s : PyStr) : PyStr := stripEnds isSpaceChar s

/-- Python `str.lstrip(chars)`. -/
def lstrip (p : Char → Bool) (s : PyStr) : PyStr := s.dropWhile p

/-- Python `str.lower()` (ASCII case folding, which is all the code relies on). -/
def lowerStr (s : PyStr) : PyStr := s.map Char.toLower

/-- The five-way dialect tag (this repository only has three branches). -/
inductive Dialect
  | blcmm
  | ft
  | unknown
  deriving DecidableEq, Repr

def blcmmMarker : PyStr := "<BLCMM".data
def ftOpenMarker : PyStr := "#<".data

/-- The two membership tests applied to the chosen detection line
(`ModFile.__init__`, lines 423-428). -/
def detectLine (line : PyStr) : Dialect :=
  if containsSub blcmmMarker line then Dialect.blcmm
  else if startsWith ftOpenMarker line then Dialect.ft
  else Dialect.unknown

/-- Dialect detection from `ModFile.__init__` (lines 419-428): read the first
line; if it strips to empty, read exactly one further line; then apply the
BLCMM and FilterTool tests to that line.  The file is the list of lines as
returned by `readline` (trailing newlines included); at end of file
`readline` returns the empty string, modelled by `headD []`. -/
def detectDialect (lines : List PyStr) : Dialect :=
  let l1 := lines.headD []
  if pyStrip l1 = [] then detectLine ((lines.drop 1).headD [])
  else detectLine l1

/-! ### Helper lemmas about whitespace-only lines -/

theorem dropWhile_nil_all {p : Char → Bool} :
    ∀ {l : PyStr}, l.dropWhile p = [] → ∀ c ∈ l, p c := by
  intro l
  induction l with
  | nil => intro _ c hc; cases hc
  | cons a as ih =>
    intro h c hc
    by_cases hpa : p a
    · rw [List.dropWhile_cons_of_pos hpa] at h
      rcases List.mem_cons.mp hc with rfl | hc
      · exact hpa
      · exact ih h c hc
    · rw [List.dropWhile_cons_of_neg hpa] at h
      cases h

theorem takeWhile_mem {p : Char → Bool} :
    ∀ {l : PyStr} {c : Char}, c ∈ l.takeWhile p → p c := by
  intro l
  induction l with
  | nil => intro c hc; cases hc
  | cons a as ih =>
    intro c hc
    by_cases hpa : p a
    · rw [List.takeWhile_cons_of_pos hpa] at hc
      rcases List.mem_cons.mp hc with rfl | hc
      · exact hpa
      · exact ih hc
    · rw [List.takeWhile_cons_of_neg hpa] at hc
      cases hc

theorem stripEnds_nil_all {p : Char → Bool} {s : PyStr}
    (h : stripEnds p s = []) : ∀ c ∈ s, p c := by
  unfold stripEnds at h
  have h1 : ((s.dropWhile p).reverse).dropWhile p = [] := by
    have := congrArg List.reverse h
    simpa using this
  have h2 : ∀ c ∈ (s.dropWhile p).reverse, p c := dropWhile_nil_all h1
  have h3 : ∀ c ∈ s.dropWhile p, p c := by
    intro c hc
    exact h2 c (List.mem_reverse.mpr hc)
  intro c hc
  have hsplit : s.takeWhile p ++ s.dropWhile p = s :=
    List.takeWhile_append_dropWhile p s
  rw [← hsplit] at hc
  rcases List.mem_append.mp hc with hc | hc
  · exact takeWhile_mem hc
  · exact h3 c hc

theorem startsWith_head_ne {a b : Char} {as bs : PyStr} (h : ¬ (a = b)) :
    startsWith (a :: as) (b :: bs) = false := by
  unfold startsWith
  simp [h]

theorem blank_no_blcmm {l : PyStr} (h : ∀ c ∈ l, isSpaceChar c) :
    containsSub blcmmMarker l = false := by
  induction l with
  | nil => rfl
  | cons a as ih =>
    have ha : isSpaceChar a := h a (List.mem_cons_self a as)
    have has : ∀ c ∈ as, isSpaceChar c := fun c hc => h c (List.mem_cons_of_mem a hc)
    unfold containsSub
    rw [ih has]
    have hne : ¬ ('<' = a) := by
      intro hlt
      rw [← hlt] at ha
      exact absurd ha (by decide)
    have : startsWith blcmmMarker (a :: as) = false := startsWith_head_ne hne
    rw [this]
    rfl

theorem blank_no_ft {l : PyStr} (h : ∀ c ∈ l, isSpaceChar c) :
    startsWith ftOpenMarker l = false := by
  cases l with
  | nil => rfl
  | cons a as =>
    have ha : isSpaceChar a := h a (List.mem_cons_self a as)
    have hne : ¬ ('#' = a) := by
      intro hh
      rw [← hh] at ha
      exact absurd ha (by decide)
    exact startsWith_head_ne hne

/-- C2: dialect detection tolerates exactly one blank leading line.  When the
first line strips to empty the detection tests are applied to the second line
exactly; and when the first two lines both strip to empty the file is
classified as the free-text fallback dialect, whatever comes later. -/
theorem c2_blank_line_detection :
    (∀ (l1 : PyStr) (rest : List PyStr), pyStrip l1 = [] →
      detectDialect (l1 :: rest) = detectLine (rest.headD [])) ∧
    (∀ (l1 l2 : PyStr) (rest : List PyStr), pyStrip l1 = [] → pyStrip l2 = [] →
      detectDialect (l1 :: l2 :: rest) = Dialect.unknown) := by
  constructor
  · intro l1 rest h1
    unfold detectDialect
    simp [h1]
  · intro l1 l2 rest h1 h2
    unfold detectDialect
    simp only [List.headD_cons, h1, if_pos rfl, List.drop_succ_cons, List.drop_zero]
    have hall : ∀ c ∈ l2, isSpaceChar c := stripEnds_nil_all h2
    unfold detectLine
    rw [blank_no_blcmm hall, blank_no_ft hall]
    rfl

/-- Witness for C2 at a concrete input: two blank lines followed by a
FilterTool marker are still classified as free-text. -/
theorem c2_blank_line_detection_witness :
    detectDialect ["\n".data, " \t\n".data, "#<Mod Name>\n".data] = Dialect.unknown :=
  c2_blank_line_detection.2 "\n".data " \t\n".data ["#<Mod Name>\n".data]
    (by decide) (by decide)

/-! ### ModURL (`label|url` annotated URLs) -/

/-- Python `link_text.split('|', 1)`: split at the first pipe, if any. -/
def splitPipe : PyStr → Option (PyStr × PyStr)
  | [] => none
  | c :: rest =>
    if c = '|' then some ([], rest)
    else (splitPipe rest).map (fun p => (c :: p.1, p.2))

structure ModURL where
  text : Option PyStr
  url : PyStr
  deriving DecidableEq, Repr

/-- `ModURL.__init__` (app.py lines 336-341). -/
def mkModURL (link_text : PyStr) : ModURL :=
  match splitPipe link_text with
  | some (a, b) => { text := some a, url := b }
  | none => { text := none, url := link_text }

/-- `ModURL.__str__` (app.py lines 357-361); `if self.text:` is Python
truthiness, so an empty label behaves like an absent one. -/
def modUrlStr (m : ModURL) : PyStr :=
  match m.text with
  | some t => if t ≠ [] then t ++ '|' :: m.url else m.url
  | none => m.url

theorem splitPipe_none {s : PyStr} (h : splitPipe s = none) : '|' ∉ s := by
  induction s with
  | nil => simp
  | cons c rest ih =>
    unfold splitPipe at h
    by_cases hc : c = '|'
    · simp [hc] at h
    · simp [hc] at h
      intro hmem
      rcases List.mem_cons.mp hmem with heq | hmem'
      · exact hc heq.symm
      · cases hsp : splitPipe rest with
        | none => exact (ih hsp) hmem'
        | some p => rw [hsp] at h; simp at h

theorem splitPipe_some :
    ∀ {s a b : PyStr}, splitPipe s = some (a, b) → s = a ++ '|' :: b := by
  intro s
  induction s with
  | nil => intro a b h; simp [splitPipe] at h
  | cons c rest ih =>
    intro a b h
    unfold splitPipe at h
    by_cases hc : c = '|'
    · rw [if_pos hc] at h
      simp only [Option.some.injEq, Prod.mk.injEq] at h
      rw [← h.1, ← h.2, hc]
      rfl
    · rw [if_neg hc] at h
      cases hsp : splitPipe rest with
      | none => rw [hsp] at h; simp at h
      | some p =>
        rw [hsp] at h
        simp only [Option.map_some', Option.some.injEq, Prod.mk.injEq] at h
        have hrest : rest = p.1 ++ '|' :: p.2 :=
          ih (show splitPipe rest = some (p.1, p.2) from hsp)
        rw [← h.1, ← h.2, hrest]
        rfl

/-- C9: `str(ModURL(s))` round-trips every string except those whose first
pipe is preceded by an empty label, where only the URL part survives. -/
theorem c9_modurl_roundtrip :
    (∀ s : PyStr, '|' ∉ s → modUrlStr (mkModURL s) = s) ∧
    (∀ s a b : PyStr, splitPipe s = some (a, b) → a ≠ [] →
      modUrlStr (mkModURL s) = s) ∧
    (∀ s b : PyStr, splitPipe s = some ([], b) →
      modUrlStr (mkModURL s) = b) := by
  refine ⟨?_, ?_, ?_⟩
  · intro s hs
    unfold mkModURL
    cases hsp : splitPipe s with
    | none => rfl
    | some p =>
      exfalso
      have := splitPipe_some (a := p.1) (b := p.2) (by rw [hsp])
      apply hs
      rw [this]
      simp
  · intro s a b hsp ha
    unfold mkModURL
    rw [hsp]
    unfold modUrlStr
    simp only [ne_eq, ha, not_false_iff, if_true]
    exact (splitPipe_some hsp).symm
  · intro s b hsp
    unfold mkModURL
    rw [hsp]
    rfl

/-- Witness for C9 at concrete inputs: a labelled URL round-trips, an
empty-labelled URL drops the leading pipe. -/
theorem c9_modurl_roundtrip_witness :
    modUrlStr (mkModURL "Cool Screenshot|http://x.io/a.jpg".data) =
      "Cool Screenshot|http://x.io/a.jpg".data ∧
    modUrlStr (mkModURL "|http://x.io/a.jpg".data) = "http://x.io/a.jpg".data :=
  ⟨c9_modurl_roundtrip.2.1 "Cool Screenshot|http://x.io/a.jpg".data
      "Cool Screenshot".data "http://x.io/a.jpg".data (by decide) (by decide),
    c9_modurl_roundtrip.2.2 "|http://x.io/a.jpg".data "http://x.io/a.jpg".data
      (by decide)⟩

/-! ### The ModFile record during extraction

Only the fields the extractors touch are carried: the title and the
description line sequence (`ModFile.__init__` starts both at
`None` / `[]`). -/

structure MF where
  mod_title : Option PyStr
  mod_desc : List PyStr
  deriving DecidableEq, Repr

def mf0 : MF := { mod_title := none, mod_desc := [] }

/-! ### The similarity ratio

`Levenshtein.ratio(a, b)` is `(len(a)+len(b) - d) / (len(a)+len(b))` where
`d` is the edit distance with substitution cost 2, which equals
`2*lcs(a,b) / (len(a)+len(b))`, and `1.0` when both strings are empty.  The
code only ever compares the ratio against the literal `.8`; since the ratio
is a quotient of small integers, the float comparison agrees with the exact
rational comparison `10*lcs > 4*(len(a)+len(b))` (a ratio of exactly 4/5
rounds to the same double as the literal `.8`, making the strict comparison
false either way). -/

def lcsLenF : Nat → PyStr → PyStr → Nat
  | _, [], _ => 0
  | _, _ :: _, [] => 0
  | 0, _ :: _, _ :: _ => 0
  | fuel + 1, a :: as, b :: bs =>
    if a = b then lcsLenF fuel as bs + 1
    else max (lcsLenF fuel (a :: as) bs) (lcsLenF fuel as (b :: bs))

/-- Length of a longest common subsequence; the fuel `|a| + |b|` strictly
bounds the recursion depth, so the fuelled computation is the standard
recurrence. -/
def lcsLen (a b : PyStr) : Nat := lcsLenF (a.length + b.length) a b

/-- The test `Levenshtein.ratio(a, b) > .8`. -/
def ratioGT (a b : PyStr) : Bool :=
  (a.isEmpty && b.isEmpty) || decide (10 * lcsLen a b > 4 * (a.length + b.length))

/-! ### The comment-line accumulator (`ModFile.add_comment_line`) -/

/-- The characters of `strip("/#\n\r\t ")`. -/
def isCommentChar (c : Char) : Bool :=
  c = '/' || c = '#' || c = '\n' || c = '\r' || c = '\t' || c = ' '

/-- The characters of the decorative-art strip set `"[]_/\\.:|#~ \t"`. -/
def isArtChar (c : Char) : Bool :=
  c = '[' || c = ']' || c = '_' || c = '/' || c = '\\' || c = '.' || c = ':' ||
  c = '|' || c = '#' || c = '~' || c = ' ' || c = '\t'

/-- Python falsiness of an optional string (`None` and `''` are falsy). -/
def optFalsy : Option PyStr → Bool
  | none => true
  | some u => u.isEmpty

/-- `ModFile.add_comment_line` (app.py lines 690-722). -/
def addCommentLine (st : MF) (raw : PyStr) (mt : Option PyStr) : MF :=
  let line := stripEnds isCommentChar raw
  if line = [] ∧ st.mod_desc = [] then st
  else if st.mod_desc.getLast? = some [] ∧ line = [] then st
  else if st.mod_desc = [] ∧ stripEnds isArtChar line = [] then st
  else if optFalsy st.mod_title = true ∧ optFalsy mt = false ∧ st.mod_desc = [] ∧
      ratioGT (lowerStr (mt.getD [])) (lowerStr line) = true then
    { st with mod_title := some line }
  else { st with mod_desc := st.mod_desc ++ [line] }

/-! ### The regex searches

Each of the three extractor regexes is modelled by a scanner that advances
the match start left to right (leftmost-first, as `re.search` does) and a
helper realising the capture group: non-greedy `(.*?)` takes the shortest
capture that its closing context accepts, greedy `(.*)` the longest, and
`.` never matches a newline. -/

/-- Non-greedy capture: shortest newline-free block followed by `close`. -/
def tryShortTo (close : PyStr) : PyStr → Option PyStr
  | [] => none
  | c :: rest =>
    if startsWith close (c :: rest) then some []
    else if c = '\n' then none
    else (tryShortTo close rest).map (fun u => c :: u)

/-- Non-greedy capture closed by `"(>| MUT=)` (the BLCMM category regex). -/
def tryCatClose : PyStr → Option PyStr
  | [] => none
  | c :: rest =>
    if startsWith "\">".data (c :: rest) || startsWith "\" MUT=".data (c :: rest) then
      some []
    else if c = '\n' then none
    else (tryCatClose rest).map (fun u => c :: u)

/-- Greedy capture: longest newline-free block followed by `close`. -/
def tryGreedyTo (close : PyStr) : PyStr → Option PyStr
  | [] => none
  | c :: rest =>
    if c = '\n' then (if startsWith close (c :: rest) then some [] else none)
    else
      match tryGreedyTo close rest with
      | some u => some (c :: u)
      | none => if startsWith close (c :: rest) then some [] else none

/-- Leftmost-first scan for `marker` followed by a successful capture. -/
def scanFor (marker : PyStr) (tryFn : PyStr → Option PyStr) : PyStr → Option PyStr
  | [] => none
  | c :: rest =>
    if startsWith marker (c :: rest) then
      match tryFn (List.drop marker.length (c :: rest)) with
      | some u => some u
      | none => scanFor marker tryFn rest
    else scanFor marker tryFn rest

/-- `re.search('#<(.*?)>', line)`, group 1 (the FilterTool category regex). -/
def findFtCat (line : PyStr) : Option PyStr :=
  scanFor "#<".data (tryShortTo ">".data) line

/-- Group 1 of the BLCMM category regex `<category name="(.*?)"(>| MUT=)`. -/
def findBlcmmCat (line : PyStr) : Option PyStr :=
  scanFor "<category name=\"".data tryCatClose line

/-- Group 1 of the BLCMM comment regex `<comment>(.*)</comment>`. -/
def findBlcmmComment (line : PyStr) : Option PyStr :=
  scanFor "<comment>".data (tryGreedyTo "</comment>".data) line

/-- Python `.replace('\\"', '"')`: rewrite every escaped quote. -/
def replaceEsc : PyStr → PyStr
  | '\\' :: '"' :: rest => '"' :: replaceEsc rest
  | c :: rest => c :: replaceEsc rest
  | [] => []

/-! ### `ModFile.load_blcmm` (app.py lines 604-628) -/

/-- The phase with `reading_comments == True`: keep taking comment matches,
stop at the first line without one. -/
def blcmmRead (st : MF) : List PyStr → MF
  | [] => st
  | line :: rest =>
    match findBlcmmComment line with
    | some c => blcmmRead (addCommentLine st c none) rest
    | none => st

/-- The phase after the title is found but before any comment was seen. -/
def blcmmPre (st : MF) : List PyStr → MF
  | [] => st
  | line :: rest =>
    match findBlcmmComment line with
    | some c => blcmmRead (addCommentLine st c none) rest
    | none => blcmmPre st rest

/-- The phase with `finding_main_cat == True`; note there is no
placeholder-title substitution in this loader. -/
def blcmmFind (st : MF) : List PyStr → MF
  | [] => st
  | line :: rest =>
    match findBlcmmCat line with
    | some t => blcmmPre { st with mod_title := some (replaceEsc (pyStrip t)) } rest
    | none => blcmmFind st rest

/-! ### `ModFile.load_ft` (app.py lines 630-663) -/

def hotfixSub : PyStr := "#<hotfix>".data
def descSub : PyStr := "description".data
def setMarker : PyStr := "set ".data

/-- The loop body once the main category has been consumed.  The branch
order is the code order: the category test (guarded by the absence of
the substring `#<hotfix>`) runs before the `set `/`#<hotfix>` tests. -/
def ftAfter (st : MF) : List PyStr → MF
  | [] => st
  | line :: rest =>
    if containsSub hotfixSub line = false ∧ (findFtCat line).isSome = true then
      if containsSub descSub (lowerStr ((findFtCat line).getD [])) = true then
        ftAfter st rest
      else st
    else if startsWith setMarker (pyStrip line) = true then st
    else if startsWith hotfixSub (pyStrip line) = true then st
    else if pyStrip line ≠ [] then ftAfter (addCommentLine st line none) rest
    else ftAfter st rest

/-- The phase with `finding_main_cat == True`: the first category label
becomes the title, with the `patch`/`mod` placeholder replaced by the
filename-derived `temp` name. -/
def ftFind (temp : PyStr) (st : MF) : List PyStr → MF
  | [] => st
  | line :: rest =>
    match findFtCat line with
    | some t =>
      ftAfter
        { st with
          mod_title := some
            (if lowerStr (pyStrip t) = "patch".data ∨ lowerStr (pyStrip t) = "mod".data
             then temp else pyStrip t) } rest
    | none => ftFind temp st rest

/-! ### `ModFile.load_unknown` (app.py lines 665-688) -/

/-- The comment-collection loop: stop at the first `set `/`#<` line. -/
def unknownLoop (temp : PyStr) (st : MF) : List PyStr → MF
  | [] => st
  | line :: rest =>
    if startsWith setMarker (pyStrip line) = true ∨
        startsWith ftOpenMarker (pyStrip line) = true then st
    else unknownLoop temp (addCommentLine st line (some temp)) rest

/-- The tail of `load_unknown` after the loop: a falsy title (absent or
empty) is replaced by the filename-derived `temp` name;
`mod_title[0]`/`mod_title[-1]` on an empty title raises `IndexError`,
modelled as `none`; a fully bracket-wrapped title loses its angle
brackets. -/
def bracketFix (st1 : MF) : PyStr → Option MF
  | [] => none
  | c :: rest =>
    if c = '<' ∧ (c :: rest).getLast? = some '>' then
      some { st1 with mod_title := some rest.dropLast }
    else some { st1 with mod_title := some (c :: rest) }

def finishTitle (temp : PyStr) (st1 : MF) : Option MF :=
  bracketFix st1
    (match st1.mod_title with
     | none => temp
     | some u => if u = [] then temp else u)

def loadUnknown (temp : PyStr) (st : MF) (lines : List PyStr) : Option MF :=
  finishTitle temp (unknownLoop temp st lines)

/-! ### `ModFile.__init__` extraction dispatch (app.py lines 419-440) -/

/-- Trailing-empty-line cleanup at the end of `__init__`; on the states the
extractors produce the description never consists solely of empty lines
(its head is never empty), so the Python loop equals dropping the empty
suffix. -/
def dropTrailingEmpty (d : List PyStr) : List PyStr :=
  (d.reverse.dropWhile (fun l => l.isEmpty)).reverse

def cleanup (st : MF) : MF := { st with mod_desc := dropTrailingEmpty st.mod_desc }

/-- The extraction entry point: detect the dialect from the first one or
two lines, run the matching loader (BLCMM continues from the current file
position; the other two rewind with `seek(0)`), then clean up trailing
empties.  `temp` is the base filename without extension. -/
def extract (temp : PyStr) (lines : List PyStr) : Option MF :=
  match detectDialect lines with
  | Dialect.blcmm =>
    let k := if pyStrip (lines.headD []) = [] then 2 else 1
    some (cleanup (blcmmFind mf0 (lines.drop k)))
  | Dialect.ft => some (cleanup (ftFind temp mf0 lines))
  | Dialect.unknown => (loadUnknown temp mf0 lines).map cleanup

example :
    extract "filename".data
      ["<BLCMM v=\"1\">\n".data, "<category name=\"Mod Name\">\n".data,
       "<comment>Testing Mod</comment>\n".data, "</category>\n".data,
       "</BLCMM>\n".data] =
    some { mod_title := some "Mod Name".data, mod_desc := ["Testing Mod".data] } := by
  decide

example :
    extract "filename".data
      ["#<Mod Name>\n".data, "Testing Mod\n".data, "#</Mod Name>\n".data] =
    some { mod_title := some "Mod Name".data, mod_desc := ["Testing Mod".data] } := by
  decide

example :
    extract "filename".data
      ["\n".data, "\n".data, "#<Mod Name>\n".data, "Testing Mod\n".data,
       "#</Mod Name>\n".data] =
    some { mod_title := some "filename".data, mod_desc := [] } := by
  decide

example :
    extract "filename".data
      ["# Filename!\n".data, "Testing Mod\n".data] =
    some { mod_title := some "Filename!".data, mod_desc := ["Testing Mod".data] } := by
  decide

example :
    ftFind "modname".data mf0
      ["#<Mod Name>\n".data, "\n".data, "#<Description>\n".data, "\n".data,
       "Testing\n".data, "\n".data, "#</Description>\n".data, "\n".data,
       "#</Mod Name>\n".data, "\n".data,
       "set Transient.SparkServiceConfiguration_6 Keys (\"whatever\")\n".data] =
    { mod_title := some "Mod Name".data, mod_desc := ["Testing".data] } := by
  decide

/-! ### Invariants of the description accumulator -/

/-- The stripped-line core of `add_comment_line`; `addCommentLine` is this
applied to the stripped raw line. -/
def addStripped (st : MF) (line : PyStr) (mt : Option PyStr) : MF :=
  if line = [] ∧ st.mod_desc = [] then st
  else if st.mod_desc.getLast? = some [] ∧ line = [] then st
  else if st.mod_desc = [] ∧ stripEnds isArtChar line = [] then st
  else if optFalsy st.mod_title = true ∧ optFalsy mt = false ∧ st.mod_desc = [] ∧
      ratioGT (lowerStr (mt.getD [])) (lowerStr line) = true then
    { st with mod_title := some line }
  else { st with mod_desc := st.mod_desc ++ [line] }

theorem addCommentLine_eq_addStripped (st : MF) (raw : PyStr) (mt : Option PyStr) :
    addCommentLine st raw mt = addStripped st (stripEnds isCommentChar raw) mt := rfl

/-- No two consecutive empty entries. -/
def noTwoEmpty : List PyStr → Bool
  | [] => true
  | [_] => true
  | a :: b :: r => !(a.isEmpty && b.isEmpty) && noTwoEmpty (b :: r)

/-- The description invariant: a non-empty first entry and no two
consecutive empty entries. -/
def descOk (d : List PyStr) : Bool :=
  (match d with
   | [] => true
   | a :: _ => !a.isEmpty) && noTwoEmpty d

theorem nte_cons_cons (a b : PyStr) (r : List PyStr) :
    noTwoEmpty (a :: b :: r) = (!(a.isEmpty && b.isEmpty) && noTwoEmpty (b :: r)) :=
  rfl

theorem descOk_cons (a : PyStr) (r : List PyStr) :
    descOk (a :: r) = (!a.isEmpty && noTwoEmpty (a :: r)) := rfl

theorem isEmpty_false_of_ne {l : PyStr} (h : l ≠ []) : l.isEmpty = false := by
  cases l with
  | nil => exact absurd rfl h
  | cons a r => rfl

theorem noTwoEmpty_append_single :
    ∀ {d : List PyStr} {x : PyStr}, noTwoEmpty d = true →
      (d.getLast? = some [] → x ≠ []) → noTwoEmpty (d ++ [x]) = true := by
  intro d
  induction d with
  | nil => intro x _ _; rfl
  | cons a r ih =>
    intro x hok hlast
    cases r with
    | nil =>
      show noTwoEmpty [a, x] = true
      rw [nte_cons_cons, Bool.and_eq_true]
      refine ⟨?_, rfl⟩
      by_cases ha : a = []
      · have hx : x ≠ [] := hlast (by rw [ha]; rfl)
        rw [isEmpty_false_of_ne hx]
        simp
      · rw [isEmpty_false_of_ne ha]
        simp
    | cons b r' =>
      rw [nte_cons_cons, Bool.and_eq_true] at hok
      have hlast' : (b :: r').getLast? = some [] → x ≠ [] := by
        intro h
        exact hlast (by rw [List.getLast?_cons_cons]; exact h)
      have hrec := ih hok.2 hlast'
      show noTwoEmpty (a :: b :: (r' ++ [x])) = true
      rw [nte_cons_cons, Bool.and_eq_true]
      exact ⟨hok.1, hrec⟩

theorem descOk_append {d : List PyStr} {x : PyStr} (hd : descOk d = true)
    (hhead : d = [] → x ≠ []) (hlast : d.getLast? = some [] → x ≠ []) :
    descOk (d ++ [x]) = true := by
  cases d with
  | nil =>
    have hx := hhead rfl
    show descOk [x] = true
    rw [descOk_cons, Bool.and_eq_true]
    refine ⟨?_, rfl⟩
    rw [isEmpty_false_of_ne hx]
    rfl
  | cons a r =>
    rw [descOk_cons, Bool.and_eq_true] at hd
    show descOk (a :: (r ++ [x])) = true
    rw [descOk_cons, Bool.and_eq_true]
    exact ⟨hd.1, noTwoEmpty_append_single hd.2 hlast⟩

theorem addStripped_descOk (st : MF) (line : PyStr) (mt : Option PyStr)
    (h : descOk st.mod_desc = true) :
    descOk (addStripped st line mt).mod_desc = true := by
  unfold addStripped
  split_ifs with h1 h2 h3 h4
  · exact h
  · exact h
  · exact h
  · exact h
  · show descOk (st.mod_desc ++ [line]) = true
    apply descOk_append h
    · intro hnil
      intro hl
      exact h1 ⟨hl, hnil⟩
    · intro hlast
      intro hl
      exact h2 ⟨hlast, hl⟩

/-- States reachable from an initial record (empty description, any title)
by comment accumulation and title rewrites. -/
inductive Reach : MF → Prop
  | start (t : Option PyStr) : Reach { mod_title := t, mod_desc := [] }
  | add (st : MF) (raw : PyStr) (mt : Option PyStr) :
      Reach st → Reach (addCommentLine st raw mt)
  | retitle (st : MF) (t : Option PyStr) :
      Reach st → Reach { mod_title := t, mod_desc := st.mod_desc }

/-- C6: in every state reachable by a sequence of `add_comment_line` calls,
the description never starts with an empty entry and never holds two
consecutive empty entries; and appending a line that strips to empty as the
very first entry, or right after an empty entry, leaves the length
unchanged. -/
theorem c6_description_invariant :
    (∀ st, Reach st → descOk st.mod_desc = true) ∧
    (∀ st raw mt, st.mod_desc = [] → stripEnds isCommentChar raw = [] →
      (addCommentLine st raw mt).mod_desc.length = st.mod_desc.length) ∧
    (∀ st raw mt, st.mod_desc.getLast? = some [] → stripEnds isCommentChar raw = [] →
      (addCommentLine st raw mt).mod_desc.length = st.mod_desc.length) := by
  refine ⟨?_, ?_, ?_⟩
  · intro st hre
    induction hre with
    | start t => rfl
    | add st raw mt _ ih =>
      rw [addCommentLine_eq_addStripped]
      exact addStripped_descOk st _ mt ih
    | retitle st t _ ih => exact ih
  · intro st raw mt hdesc hstrip
    rw [addCommentLine_eq_addStripped]
    unfold addStripped
    rw [hstrip]
    rw [if_pos ⟨rfl, hdesc⟩]
  · intro st raw mt hlast hstrip
    rw [addCommentLine_eq_addStripped]
    unfold addStripped
    rw [hstrip]
    have hne : st.mod_desc ≠ [] := by
      intro hnil
      rw [hnil] at hlast
      cases hlast
    rw [if_neg (fun hh => hne hh.2), if_pos ⟨hlast, rfl⟩]

/-- Witness for C6 at concrete inputs: a reachable state keeps the
invariant, and the two no-growth cases at concrete states. -/
theorem c6_description_invariant_witness :
    descOk (addCommentLine { mod_title := none, mod_desc := ["abc".data] }
      "##\n".data none).mod_desc = true ∧
    (addCommentLine mf0 "##\n".data none).mod_desc.length = 0 := by
  constructor
  · exact c6_description_invariant.1 _
      (Reach.add _ "##\n".data none
        (Reach.add { mod_title := none, mod_desc := [] } "abc".data none
          (Reach.start none)))
  · exact c6_description_invariant.2.1 mf0 "##\n".data none rfl (by decide)

/-! ### Safety of the free-text loader (C10, C1) -/

theorem bool_ne_true {b : Bool} (h : b = false) : ¬ (b = true) := by
  rw [h]
  exact Bool.false_ne_true

theorem addCommentLine_title_empty_mt (st : MF) (raw : PyStr) :
    (addCommentLine st raw (some [])).mod_title = st.mod_title := by
  rw [addCommentLine_eq_addStripped]
  unfold addStripped
  split_ifs with h1 h2 h3 h4
  · rfl
  · rfl
  · rfl
  · exact absurd h4.2.1 (by decide)
  · rfl

theorem unknownLoop_title_empty_hint (st : MF) :
    ∀ lines, (unknownLoop [] st lines).mod_title = st.mod_title := by
  intro lines
  induction lines generalizing st with
  | nil => rfl
  | cons l rest ih =>
    unfold unknownLoop
    split_ifs with h
    · rfl
    · rw [ih (addCommentLine st l (some []))]
      exact addCommentLine_title_empty_mt st l

theorem bracketFix_cons (st1 : MF) (c : Char) (rest : PyStr) :
    bracketFix st1 (c :: rest) =
      if c = '<' ∧ (c :: rest).getLast? = some '>' then
        some { st1 with mod_title := some rest.dropLast }
      else some { st1 with mod_title := some (c :: rest) } := rfl

theorem bracketFix_some (st1 : MF) :
    ∀ t : PyStr, t ≠ [] → ∃ mf, bracketFix st1 t = some mf ∧ mf.mod_title ≠ none := by
  intro t ht
  cases t with
  | nil => exact absurd rfl ht
  | cons c rest =>
    rw [bracketFix_cons]
    split_ifs with hbr
    · exact ⟨_, rfl, by simp⟩
    · exact ⟨_, rfl, by simp⟩

theorem finishTitle_some (temp : PyStr) (st1 : MF) (h : temp ≠ []) :
    ∃ mf, finishTitle temp st1 = some mf ∧ mf.mod_title ≠ none := by
  have ht : (match st1.mod_title with
      | none => temp
      | some u => if u = [] then temp else u) ≠ [] := by
    cases hm : st1.mod_title with
    | none => exact h
    | some u =>
      show (if u = [] then temp else u) ≠ []
      split_ifs with hu
      · exact h
      · exact hu
  exact bracketFix_some st1 _ ht

theorem loadUnknown_empty_hint (lines : List PyStr) :
    loadUnknown [] mf0 lines = none := by
  show finishTitle [] (unknownLoop [] mf0 lines) = none
  have h : (unknownLoop [] mf0 lines).mod_title = none :=
    unknownLoop_title_empty_hint mf0 lines
  unfold finishTitle
  rw [h]
  rfl

/-- C10: with a non-empty filename hint the free-text loader always
terminates without the `IndexError` (the title checked by the final
angle-bracket test is non-empty and the result carries a title); with an
empty hint the title-match branch can never fire, the fallback title is
empty, and the `mod_title[0]` indexing is out of bounds, modelled by the
`none` result. -/
theorem c10_unknown_bracket_safety :
    (∀ (temp : PyStr) (st : MF) (lines : List PyStr), temp ≠ [] →
      ∃ mf, loadUnknown temp st lines = some mf ∧ mf.mod_title ≠ none) ∧
    (∀ lines : List PyStr, loadUnknown [] mf0 lines = none) := by
  constructor
  · intro temp st lines h
    exact finishTitle_some temp (unknownLoop temp st lines) h
  · exact loadUnknown_empty_hint

/-- Witness for C10 at a concrete input. -/
theorem c10_unknown_bracket_safety_witness :
    ∃ mf, loadUnknown "modname".data mf0 ["Testing\n".data] = some mf ∧
      mf.mod_title ≠ none :=
  c10_unknown_bracket_safety.1 "modname".data mf0 ["Testing\n".data] (by decide)

/-- C1 counterexample: a BLCMM-detected file with no category line exits
extraction successfully with `mod_title = None` and no distinguished
failure of any kind, contradicting the claim that a record with no title
never exits extraction successfully. -/
theorem c1_counterexample :
    extract "modfile".data ["<BLCMM v=\"1\">\n".data] =
      some { mod_title := none, mod_desc := [] } := by
  decide

/-- C1 amended: only the free-text fallback extractor guarantees a present
title, and only given a non-empty filename hint (the filename base is
substituted when nothing better is found); there is no distinguished
"not a mod file" failure, and the structured extractors may exit with an
absent title. -/
theorem c1_amended_unknown_title (temp : PyStr) (lines : List PyStr)
    (h : temp ≠ []) (hdet : detectDialect lines = Dialect.unknown) :
    ∃ mf, extract temp lines = some mf ∧ mf.mod_title ≠ none := by
  unfold extract
  rw [hdet]
  show ∃ mf, (loadUnknown temp mf0 lines).map cleanup = some mf ∧ mf.mod_title ≠ none
  obtain ⟨mf, hmf, ht⟩ := finishTitle_some temp (unknownLoop temp mf0 lines) h
  have hmf' : loadUnknown temp mf0 lines = some mf := hmf
  refine ⟨cleanup mf, ?_, ht⟩
  rw [hmf']
  rfl

/-- Witness for the amended C1 at a concrete input. -/
theorem c1_amended_unknown_title_witness :
    ∃ mf, extract "modfile".data ["Free text\n".data] = some mf ∧
      mf.mod_title ≠ none :=
  c1_amended_unknown_title "modfile".data ["Free text\n".data]
    (by decide) (by decide)

/-! ### Title placeholders and FilterTool capture rules (C4, C5) -/

theorem ftFind_cons (temp : PyStr) (st : MF) (line : PyStr) (rest : List PyStr) :
    ftFind temp st (line :: rest) =
      match findFtCat line with
      | some t =>
        ftAfter
          { st with
            mod_title := some
              (if lowerStr (pyStrip t) = "patch".data ∨ lowerStr (pyStrip t) = "mod".data
               then temp else pyStrip t) } rest
      | none => ftFind temp st rest := rfl

theorem ftAfter_cons (st : MF) (line : PyStr) (rest : List PyStr) :
    ftAfter st (line :: rest) =
      if containsSub hotfixSub line = false ∧ (findFtCat line).isSome = true then
        if containsSub descSub (lowerStr ((findFtCat line).getD [])) = true then
          ftAfter st rest
        else st
      else if startsWith setMarker (pyStrip line) = true then st
      else if startsWith hotfixSub (pyStrip line) = true then st
      else if pyStrip line ≠ [] then ftAfter (addCommentLine st line none) rest
      else ftAfter st rest := rfl

theorem blcmmFind_cons (st : MF) (line : PyStr) (rest : List PyStr) :
    blcmmFind st (line :: rest) =
      match findBlcmmCat line with
      | some t => blcmmPre { st with mod_title := some (replaceEsc (pyStrip t)) } rest
      | none => blcmmFind st rest := rfl

/-- C4 counterexample: the BLCMM loader keeps the placeholder label
`patch` as the title instead of substituting the file base name
(`modfile`), so the claimed substitution does not happen for the BLCMM
extractor. -/
theorem c4_counterexample :
    extract "modfile".data
      ["<BLCMM v=\"1\">\n".data, "<category name=\"patch\">\n".data] =
      some { mod_title := some "patch".data, mod_desc := [] } := by
  decide

/-- C4 amended: only the FilterTool extractor substitutes the file base
name when the first category label lower-cases to `patch` or `mod`
(keeping the stripped label otherwise); the BLCMM extractor always keeps
the extracted label, stripped and with `\"` unescaped, placeholder or
not. -/
theorem c4_amended_placeholder_title :
    (∀ (temp : PyStr) (st : MF) (line : PyStr) (rest : List PyStr) (lab : PyStr),
      findFtCat line = some lab →
      (lowerStr (pyStrip lab) = "patch".data ∨ lowerStr (pyStrip lab) = "mod".data) →
      ftFind temp st (line :: rest) = ftAfter { st with mod_title := some temp } rest) ∧
    (∀ (temp : PyStr) (st : MF) (line : PyStr) (rest : List PyStr) (lab : PyStr),
      findFtCat line = some lab →
      ¬ (lowerStr (pyStrip lab) = "patch".data ∨ lowerStr (pyStrip lab) = "mod".data) →
      ftFind temp st (line :: rest) =
        ftAfter { st with mod_title := some (pyStrip lab) } rest) ∧
    (∀ (st : MF) (line : PyStr) (rest : List PyStr) (lab : PyStr),
      findBlcmmCat line = some lab →
      blcmmFind st (line :: rest) =
        blcmmPre { st with mod_title := some (replaceEsc (pyStrip lab)) } rest) := by
  refine ⟨?_, ?_, ?_⟩
  · intro temp st line rest lab hfind hph
    have h1 : ftFind temp st (line :: rest) =
        ftAfter
          { st with
            mod_title := some
              (if lowerStr (pyStrip lab) = "patch".data ∨ lowerStr (pyStrip lab) = "mod".data
               then temp else pyStrip lab) } rest := by
      rw [ftFind_cons, hfind]
    rw [h1, if_pos hph]
  · intro temp st line rest lab hfind hph
    have h1 : ftFind temp st (line :: rest) =
        ftAfter
          { st with
            mod_title := some
              (if lowerStr (pyStrip lab) = "patch".data ∨ lowerStr (pyStrip lab) = "mod".data
               then temp else pyStrip lab) } rest := by
      rw [ftFind_cons, hfind]
    rw [h1, if_neg hph]
  · intro st line rest lab hfind
    rw [blcmmFind_cons, hfind]

/-- Witness for the amended C4 at concrete inputs: FilterTool substitutes
the base name for a `patch` label, BLCMM keeps it. -/
theorem c4_amended_placeholder_title_witness :
    ftFind "basename".data mf0 ["#<patch>\n".data] =
      { mod_title := some "basename".data, mod_desc := [] } ∧
    blcmmFind mf0 ["<category name=\"patch\">\n".data] =
      { mod_title := some "patch".data, mod_desc := [] } := by
  constructor
  · have h := c4_amended_placeholder_title.1 "basename".data mf0 "#<patch>\n".data []
      "patch".data (by decide) (Or.inl (by decide))
    rw [h]
    decide
  · have h := c4_amended_placeholder_title.2.2 mf0 "<category name=\"patch\">\n".data []
      "patch".data (by decide)
    rw [h]
    decide

/-- C5 counterexample: a line whose stripped form starts with `set ` but
which also matches a category tag whose label contains `description`
does not terminate capture (the category branch runs first), so the later
line `Testing` is still captured, where the claim requires the capture to
have terminated with an empty description. -/
theorem c5_counterexample :
    startsWith setMarker (pyStrip "set x #<description>\n".data) = true ∧
    ftFind "modfile".data mf0
      ["#<Mod Name>\n".data, "set x #<description>\n".data, "Testing\n".data] =
      { mod_title := some "Mod Name".data, mod_desc := ["Testing".data] } := by
  decide

/-- C5 amended: after the title, lines are classified in code order.  A
line matching a category tag (and not containing `#<hotfix>`) is handled
by the category rule even if it starts with `set `: capture continues if
the label contains `description` (case-insensitively) and terminates
otherwise.  Only lines not taken by the category branch terminate capture
when their stripped form starts with `set ` or `#<hotfix>`; remaining
non-blank lines go to the comment accumulator.  Scenario D holds. -/
theorem c5_amended_ft_capture :
    (∀ (st : MF) (line : PyStr) (rest : List PyStr) (lab : PyStr),
      containsSub hotfixSub line = false → findFtCat line = some lab →
      containsSub descSub (lowerStr lab) = true →
      ftAfter st (line :: rest) = ftAfter st rest) ∧
    (∀ (st : MF) (line : PyStr) (rest : List PyStr) (lab : PyStr),
      containsSub hotfixSub line = false → findFtCat line = some lab →
      containsSub descSub (lowerStr lab) = false →
      ftAfter st (line :: rest) = st) ∧
    (∀ (st : MF) (line : PyStr) (rest : List PyStr),
      (containsSub hotfixSub line = true ∨ findFtCat line = none) →
      (startsWith setMarker (pyStrip line) = true ∨
        startsWith hotfixSub (pyStrip line) = true) →
      ftAfter st (line :: rest) = st) ∧
    (∀ (st : MF) (line : PyStr) (rest : List PyStr),
      (containsSub hotfixSub line = true ∨ findFtCat line = none) →
      startsWith setMarker (pyStrip line) = false →
      startsWith hotfixSub (pyStrip line) = false →
      pyStrip line ≠ [] →
      ftAfter st (line :: rest) = ftAfter (addCommentLine st line none) rest) ∧
    ftFind "modfile".data mf0
      ["#<Mod Name>\n".data, "#<Description>\n".data, "Testing\n".data,
       "#</Description>\n".data, "#</Mod Name>\n".data] =
      { mod_title := some "Mod Name".data, mod_desc := ["Testing".data] } := by
  refine ⟨?_, ?_, ?_, ?_, by decide⟩
  · intro st line rest lab hhot hfind hdesc
    rw [ftAfter_cons, if_pos ⟨hhot, by rw [hfind]; rfl⟩, hfind, Option.getD_some,
      if_pos hdesc]
  · intro st line rest lab hhot hfind hdesc
    rw [ftAfter_cons, if_pos ⟨hhot, by rw [hfind]; rfl⟩, hfind, Option.getD_some,
      if_neg (bool_ne_true hdesc)]
  · intro st line rest hfail hstop
    have hc1 : ¬ (containsSub hotfixSub line = false ∧ (findFtCat line).isSome = true) := by
      rintro ⟨h1, h2⟩
      cases hfail with
      | inl h => rw [h] at h1; cases h1
      | inr h => rw [h] at h2; cases h2
    rw [ftAfter_cons, if_neg hc1]
    by_cases hset : startsWith setMarker (pyStrip line) = true
    · rw [if_pos hset]
    · rw [if_neg hset]
      cases hstop with
      | inl h => exact absurd h hset
      | inr h => rw [if_pos h]
  · intro st line rest hfail hset hhf hne
    have hc1 : ¬ (containsSub hotfixSub line = false ∧ (findFtCat line).isSome = true) := by
      rintro ⟨h1, h2⟩
      cases hfail with
      | inl h => rw [h] at h1; cases h1
      | inr h => rw [h] at h2; cases h2
    rw [ftAfter_cons, if_neg hc1, if_neg (bool_ne_true hset),
      if_neg (bool_ne_true hhf), if_pos hne]

/-- Witness for the amended C5 at concrete inputs: a description
sub-category continues capture, a plain category stops it. -/
theorem c5_amended_ft_capture_witness :
    ftAfter mf0 ["#<Description>\n".data] = ftAfter mf0 [] ∧
    ftAfter mf0 ["#<Options>\n".data, "Testing\n".data] = mf0 :=
  ⟨c5_amended_ft_capture.1 mf0 "#<Description>\n".data [] "Description".data
      (by decide) (by decide) (by decide),
    c5_amended_ft_capture.2.1 mf0 "#<Options>\n".data ["Testing\n".data] "Options".data
      (by decide) (by decide) (by decide)⟩

/-! ### The Readme record (`Readme.read_file_obj`, app.py lines 881-937)

Python dicts preserve insertion order and re-assigning an existing key
keeps its position, so the section mapping is an association list where
`setKey` replaces in place or appends at the end. -/

abbrev RMap := List (PyStr × List PyStr)

def defaultKey : PyStr := "(default)".data

def setKey (k : PyStr) (v : List PyStr) : RMap → RMap
  | [] => [(k, v)]
  | (k', v') :: rest => if k' = k then (k, v) :: rest else (k', v') :: setKey k v rest

def lookupMap : RMap → PyStr → Option (List PyStr)
  | [], _ => none
  | (k', v') :: rest, k => if k' = k then some v' else lookupMap rest k

def appendTo (k : PyStr) (x : PyStr) : RMap → RMap
  | [] => []
  | (k', v') :: rest =>
    if k' = k then (k', v' ++ [x]) :: rest else (k', v') :: appendTo k x rest

def popLastAt (k : PyStr) : RMap → RMap
  | [] => []
  | (k', v') :: rest =>
    if k' = k then (k', v'.dropLast) :: rest else (k', v') :: popLastAt k rest

/-- Characters of `lstrip("# \t")`. -/
def isHashOrSp (c : Char) : Bool := c = '#' || c = ' ' || c = '\t'

/-- Characters of `lstrip("- \t")`. -/
def isDashOrSp (c : Char) : Bool := c = '-' || c = ' ' || c = '\t'

/-- Parser state: the mapping, the `first_section` pointer, the current
section name and the previous (stripped) line. -/
structure RS where
  mapping : RMap
  first_section : Option PyStr
  cur : PyStr
  prev : Option PyStr
  deriving DecidableEq, Repr

/-- Python truthiness of `prev_line` (`None` and `''` are falsy). -/
def prevTruthy : Option PyStr → Bool
  | none => false
  | some p => !p.isEmpty

/-- `len(self.mapping[cur_section])`; the current section is always a key
in the real states, so the default is never taken there. -/
def curLen (st : RS) : Nat := ((lookupMap st.mapping st.cur).getD []).length

/-- The shared `===`/`---` (Setext heading) branch. -/
def setextStep (st : RS) (line : PyStr) : RS :=
  if prevTruthy st.prev = true then
    if 0 < curLen st then
      { mapping :=
          setKey (lowerStr (pyStrip (st.prev.getD []))) []
            (popLastAt st.cur st.mapping),
        first_section :=
          if st.first_section = some st.cur ∧
              ((lookupMap (popLastAt st.cur st.mapping) st.cur).getD []).length = 0
          then none else st.first_section,
        cur := lowerStr (pyStrip (st.prev.getD [])),
        prev := st.prev }
    else st
  else
    { st with
      first_section :=
        if optFalsy st.first_section = true then some st.cur else st.first_section,
      mapping := appendTo st.cur line st.mapping }

/-- One loop iteration on the stripped line, before the `prev_line`
update. -/
def stepCore (st : RS) (line : PyStr) : RS :=
  if startsWith "#".data line = true then
    { st with
      mapping := setKey (lowerStr (lstrip isHashOrSp line)) [] st.mapping,
      cur := lowerStr (lstrip isHashOrSp line) }
  else if startsWith "===".data line = true then setextStep st line
  else if startsWith "---".data line = true then setextStep st line
  else if startsWith "-".data line = true then
    { st with
      mapping := setKey (lowerStr (lstrip isDashOrSp line)) [] st.mapping,
      cur := lowerStr (lstrip isDashOrSp line) }
  else if 0 < curLen st ∨ line ≠ [] then
    { st with
      first_section :=
        if optFalsy st.first_section = true then some st.cur else st.first_section,
      mapping := appendTo st.cur line st.mapping }
  else st

def readStep (st : RS) (raw : PyStr) : RS :=
  { stepCore st (pyStrip raw) with prev := some (pyStrip raw) }

def readLoop (st : RS) : List PyStr → RS
  | [] => st
  | raw :: rest => readLoop (readStep st raw) rest

def rsInit : RS :=
  { mapping := [(defaultKey, [])], first_section := none, cur := defaultKey,
    prev := none }

/-- The trailing-empty trim applied to every section after the loop. -/
def trimValues (m : RMap) : RMap := m.map (fun kv => (kv.1, dropTrailingEmpty kv.2))

/-- The finished Readme record. -/
structure RM where
  mapping : RMap
  first_section : Option PyStr
  deriving DecidableEq, Repr

def readFileObj (lines : List PyStr) : RM :=
  { mapping := trimValues (readLoop rsInit lines).mapping,
    first_section := (readLoop rsInit lines).first_section }

example :
    readFileObj ["Beginning Text\n".data, "# Overview\n".data, "Testing\n".data,
      "# Foobar\n".data, "Not Matched\n".data] =
    { mapping := [(defaultKey, ["Beginning Text".data]),
        ("overview".data, ["Testing".data]),
        ("foobar".data, ["Not Matched".data])],
      first_section := some defaultKey } := by
  decide

example :
    readFileObj ["# Unrelated\n".data, "Testing\n".data] =
    { mapping := [(defaultKey, []), ("unrelated".data, ["Testing".data])],
      first_section := some "unrelated".data } := by
  decide

example :
    readFileObj ["My Mod\n".data, "======\n".data, "Body\n".data] =
    { mapping := [(defaultKey, []), ("my mod".data, ["Body".data])],
      first_section := some "my mod".data } := by
  decide

example :
    (readFileObj ["#\n".data, "x\n".data, "# B\n".data, "y\n".data]).first_section =
      some "b".data := by
  decide

/-! ### C7: the `first_section` pointer -/

/-- Spec-side definition, following the amended claim wording: the name
of the first section with a non-empty name that receives a non-empty
appended line (heading lines not counting), tracking heading changes of
the current section; when only the empty-named section receives such
lines the pointer holds the empty string, because Python truthiness
treats the recorded `''` as absent and lets the next content-receiving
section overwrite it.  (Setext underline lines are skipped; the claim is
settled on inputs without them.) -/
def specFirstSection (cur : PyStr) : List PyStr → Option PyStr
  | [] => none
  | raw :: rest =>
    if startsWith "#".data (pyStrip raw) = true then
      specFirstSection (lowerStr (lstrip isHashOrSp (pyStrip raw))) rest
    else if startsWith "===".data (pyStrip raw) = true then specFirstSection cur rest
    else if startsWith "---".data (pyStrip raw) = true then specFirstSection cur rest
    else if startsWith "-".data (pyStrip raw) = true then
      specFirstSection (lowerStr (lstrip isDashOrSp (pyStrip raw))) rest
    else if pyStrip raw ≠ [] then
      (if cur ≠ [] then some cur
       else
         match specFirstSection cur rest with
         | some s => some s
         | none => some [])
    else specFirstSection cur rest

theorem specFirstSection_cons (cur raw : PyStr) (rest : List PyStr) :
    specFirstSection cur (raw :: rest) =
      if startsWith "#".data (pyStrip raw) = true then
        specFirstSection (lowerStr (lstrip isHashOrSp (pyStrip raw))) rest
      else if startsWith "===".data (pyStrip raw) = true then specFirstSection cur rest
      else if startsWith "---".data (pyStrip raw) = true then specFirstSection cur rest
      else if startsWith "-".data (pyStrip raw) = true then
        specFirstSection (lowerStr (lstrip isDashOrSp (pyStrip raw))) rest
      else if pyStrip raw ≠ [] then
        (if cur ≠ [] then some cur
         else
           match specFirstSection cur rest with
           | some s => some s
           | none => some [])
      else specFirstSection cur rest := rfl

/-- A line that is neither a heading nor blank. -/
def isContentLine (raw : PyStr) : Bool :=
  !startsWith "#".data (pyStrip raw) && !startsWith "-".data (pyStrip raw) &&
    !(pyStrip raw).isEmpty

/-- All section values empty: holds whenever `first_section` is still
`None` (and no Setext line has run). -/
def emptyVals (m : RMap) : Prop := ∀ kv ∈ m, kv.2 = ([] : List PyStr)

theorem setKey_emptyVals {m : RMap} {k : PyStr} (h : emptyVals m) :
    emptyVals (setKey k [] m) := by
  induction m with
  | nil =>
    intro kv hkv
    rcases List.mem_singleton.mp hkv with rfl
    rfl
  | cons p rest ih =>
    obtain ⟨k', v'⟩ := p
    intro kv hkv
    unfold setKey at hkv
    split_ifs at hkv with hk
    · rcases List.mem_cons.mp hkv with rfl | hkv
      · rfl
      · exact h kv (List.mem_cons_of_mem _ hkv)
    · rcases List.mem_cons.mp hkv with rfl | hkv
      · exact h (k', v') (List.mem_cons_self _ _)
      · exact ih (fun q hq => h q (List.mem_cons_of_mem _ hq)) kv hkv

theorem lookup_emptyVals {m : RMap} {k : PyStr} (h : emptyVals m) :
    (lookupMap m k).getD [] = [] := by
  induction m with
  | nil => rfl
  | cons p rest ih =>
    obtain ⟨k', v'⟩ := p
    unfold lookupMap
    split_ifs with hk
    · exact h (k', v') (List.mem_cons_self _ _)
    · exact ih (fun q hq => h q (List.mem_cons_of_mem _ hq))

theorem curLen_zero_of_empty {st : RS} (h : emptyVals st.mapping) : curLen st = 0 := by
  unfold curLen
  rw [lookup_emptyVals h]
  rfl

theorem readStep_hash {st : RS} {raw : PyStr}
    (hh : startsWith "#".data (pyStrip raw) = true) :
    readStep st raw =
      { mapping := setKey (lowerStr (lstrip isHashOrSp (pyStrip raw))) [] st.mapping,
        first_section := st.first_section,
        cur := lowerStr (lstrip isHashOrSp (pyStrip raw)),
        prev := some (pyStrip raw) } := by
  unfold readStep stepCore
  rw [if_pos hh]

theorem readStep_dash {st : RS} {raw : PyStr}
    (hh : startsWith "#".data (pyStrip raw) = false)
    (he : startsWith "===".data (pyStrip raw) = false)
    (hd3 : startsWith "---".data (pyStrip raw) = false)
    (hd : startsWith "-".data (pyStrip raw) = true) :
    readStep st raw =
      { mapping := setKey (lowerStr (lstrip isDashOrSp (pyStrip raw))) [] st.mapping,
        first_section := st.first_section,
        cur := lowerStr (lstrip isDashOrSp (pyStrip raw)),
        prev := some (pyStrip raw) } := by
  unfold readStep stepCore
  rw [if_neg (bool_ne_true hh), if_neg (bool_ne_true he), if_neg (bool_ne_true hd3),
    if_pos hd]

theorem readStep_plain {st : RS} {raw : PyStr}
    (hh : startsWith "#".data (pyStrip raw) = false)
    (he : startsWith "===".data (pyStrip raw) = false)
    (hd3 : startsWith "---".data (pyStrip raw) = false)
    (hd : startsWith "-".data (pyStrip raw) = false) :
    readStep st raw =
      if 0 < curLen st ∨ pyStrip raw ≠ [] then
        { mapping := appendTo st.cur (pyStrip raw) st.mapping,
          first_section :=
            if optFalsy st.first_section = true then some st.cur else st.first_section,
          cur := st.cur, prev := some (pyStrip raw) }
      else
        { mapping := st.mapping, first_section := st.first_section,
          cur := st.cur, prev := some (pyStrip raw) } := by
  cases st with
  | mk m f c p =>
    unfold readStep stepCore
    rw [if_neg (bool_ne_true hh), if_neg (bool_ne_true he), if_neg (bool_ne_true hd3),
      if_neg (bool_ne_true hd)]
    split_ifs <;> rfl

theorem optFalsy_cases {x : Option PyStr} (h : optFalsy x = true) :
    x = none ∨ x = some [] := by
  cases x with
  | none => exact Or.inl rfl
  | some s =>
    cases s with
    | nil => exact Or.inr rfl
    | cons a r => exact absurd h Bool.false_ne_true

/-- Invariant carried while the pointer is still falsy: with `None` every
section is empty; with the falsy empty string (possible once content reached the
section named by the empty string) every section with a non-empty name is
still empty. -/
def ptrInv (st : RS) : Prop :=
  (st.first_section = none → emptyVals st.mapping) ∧
  (st.first_section = some [] → ∀ kv ∈ st.mapping, kv.1 ≠ [] → kv.2 = [])

theorem ptrInv_falsy_second {st : RS} (hinv : ptrInv st)
    (hfal : optFalsy st.first_section = true) :
    ∀ kv ∈ st.mapping, kv.1 ≠ [] → kv.2 = [] := by
  rcases optFalsy_cases hfal with h | h
  · intro kv hkv _
    exact hinv.1 h kv hkv
  · exact hinv.2 h

theorem setKey_preserve_ne {m : RMap} {k : PyStr}
    (h : ∀ kv ∈ m, kv.1 ≠ [] → kv.2 = []) :
    ∀ kv ∈ setKey k [] m, kv.1 ≠ [] → kv.2 = [] := by
  induction m with
  | nil =>
    intro kv hkv _
    rcases List.mem_singleton.mp hkv with rfl
    rfl
  | cons p rest ih =>
    obtain ⟨k', v'⟩ := p
    intro kv hkv hne
    unfold setKey at hkv
    split_ifs at hkv with hk
    · rcases List.mem_cons.mp hkv with rfl | hkv
      · rfl
      · exact h kv (List.mem_cons_of_mem _ hkv) hne
    · rcases List.mem_cons.mp hkv with rfl | hkv
      · exact h (k', v') (List.mem_cons_self _ _) hne
      · exact ih (fun q hq => h q (List.mem_cons_of_mem _ hq)) kv hkv hne

theorem appendTo_preserve_ne {m : RMap} {k x : PyStr} (hk : k = [])
    (h : ∀ kv ∈ m, kv.1 ≠ [] → kv.2 = []) :
    ∀ kv ∈ appendTo k x m, kv.1 ≠ [] → kv.2 = [] := by
  induction m with
  | nil =>
    intro kv hkv
    cases hkv
  | cons p rest ih =>
    obtain ⟨k', v'⟩ := p
    intro kv hkv hne
    unfold appendTo at hkv
    split_ifs at hkv with hkk
    · rcases List.mem_cons.mp hkv with rfl | hkv
      · exact absurd (hkk.trans hk) hne
      · exact h kv (List.mem_cons_of_mem _ hkv) hne
    · rcases List.mem_cons.mp hkv with rfl | hkv
      · exact h (k', v') (List.mem_cons_self _ _) hne
      · exact ih (fun q hq => h q (List.mem_cons_of_mem _ hq)) kv hkv hne

theorem lookup_ne_key_empty {m : RMap} {k : PyStr} (hk : k ≠ [])
    (h : ∀ kv ∈ m, kv.1 ≠ [] → kv.2 = []) :
    (lookupMap m k).getD [] = [] := by
  induction m with
  | nil => rfl
  | cons p rest ih =>
    obtain ⟨k', v'⟩ := p
    unfold lookupMap
    split_ifs with hkk
    · exact h (k', v') (List.mem_cons_self _ _) (fun hc => hk (hkk.symm.trans hc))
    · exact ih (fun q hq => h q (List.mem_cons_of_mem _ hq))

/-- Once `first_section` holds a truthy value it never changes (on inputs
with no Setext underline lines): `if not self.first_section:` fails for
every later content line. -/
theorem readLoop_first_truthy :
    ∀ (lines : List PyStr) (st : RS),
      (∀ l ∈ lines, startsWith "===".data (pyStrip l) = false ∧
        startsWith "---".data (pyStrip l) = false) →
      optFalsy st.first_section = false →
      (readLoop st lines).first_section = st.first_section := by
  intro lines
  induction lines with
  | nil =>
    intro st _ _
    rfl
  | cons raw rest ih =>
    intro st hns ht
    have h0 := hns raw (List.mem_cons_self raw rest)
    have hrest : ∀ l ∈ rest, startsWith "===".data (pyStrip l) = false ∧
        startsWith "---".data (pyStrip l) = false :=
      fun l hl => hns l (List.mem_cons_of_mem raw hl)
    show (readLoop (readStep st raw) rest).first_section = _
    by_cases hh : startsWith "#".data (pyStrip raw) = true
    · rw [readStep_hash hh]
      exact ih _ hrest ht
    · replace hh := Bool.eq_false_iff.mpr hh
      by_cases hd : startsWith "-".data (pyStrip raw) = true
      · rw [readStep_dash hh h0.1 h0.2 hd]
        exact ih _ hrest ht
      · replace hd := Bool.eq_false_iff.mpr hd
        rw [readStep_plain hh h0.1 h0.2 hd]
        by_cases hc : 0 < curLen st ∨ pyStrip raw ≠ []
        · rw [if_pos hc]
          have hfs :
              (if optFalsy st.first_section = true then some st.cur
               else st.first_section) = st.first_section := by
            rw [ht]
            rfl
          rw [ih { mapping := appendTo st.cur (pyStrip raw) st.mapping,
                   first_section :=
                     (if optFalsy st.first_section = true then some st.cur
                      else st.first_section),
                   cur := st.cur,
                   prev := some (pyStrip raw) } hrest
              (by
                show optFalsy (if optFalsy st.first_section = true then some st.cur
                    else st.first_section) = false
                rw [hfs]
                exact ht)]
          exact hfs
        · rw [if_neg hc]
          exact ih { mapping := st.mapping, first_section := st.first_section,
                     cur := st.cur, prev := some (pyStrip raw) } hrest ht

/-- While the pointer is falsy (`None`, or the recorded empty string), reading the
remaining lines leaves it at the first non-empty-named section that
receives content, per `specFirstSection`. -/
theorem readLoop_first_falsy :
    ∀ (lines : List PyStr) (st : RS),
      (∀ l ∈ lines, startsWith "===".data (pyStrip l) = false ∧
        startsWith "---".data (pyStrip l) = false) →
      optFalsy st.first_section = true →
      ptrInv st →
      (readLoop st lines).first_section =
        (match specFirstSection st.cur lines with
         | some s => some s
         | none => st.first_section) := by
  intro lines
  induction lines with
  | nil =>
    intro st _ _ _
    rfl
  | cons raw rest ih =>
    intro st hns hfal hinv
    have h0 := hns raw (List.mem_cons_self raw rest)
    have hrest : ∀ l ∈ rest, startsWith "===".data (pyStrip l) = false ∧
        startsWith "---".data (pyStrip l) = false :=
      fun l hl => hns l (List.mem_cons_of_mem raw hl)
    show (readLoop (readStep st raw) rest).first_section = _
    by_cases hh : startsWith "#".data (pyStrip raw) = true
    · rw [readStep_hash hh,
        ih { mapping := setKey (lowerStr (lstrip isHashOrSp (pyStrip raw))) [] st.mapping,
             first_section := st.first_section,
             cur := lowerStr (lstrip isHashOrSp (pyStrip raw)),
             prev := some (pyStrip raw) } hrest hfal
          ⟨fun hfn => setKey_emptyVals (hinv.1 hfn),
           fun hfe => setKey_preserve_ne (hinv.2 hfe)⟩]
      show (match specFirstSection (lowerStr (lstrip isHashOrSp (pyStrip raw))) rest with
            | some s => some s
            | none => st.first_section) =
          (match specFirstSection st.cur (raw :: rest) with
            | some s => some s
            | none => st.first_section)
      rw [specFirstSection_cons, if_pos hh]
    · replace hh := Bool.eq_false_iff.mpr hh
      by_cases hd : startsWith "-".data (pyStrip raw) = true
      · rw [readStep_dash hh h0.1 h0.2 hd,
          ih { mapping := setKey (lowerStr (lstrip isDashOrSp (pyStrip raw))) [] st.mapping,
               first_section := st.first_section,
               cur := lowerStr (lstrip isDashOrSp (pyStrip raw)),
               prev := some (pyStrip raw) } hrest hfal
            ⟨fun hfn => setKey_emptyVals (hinv.1 hfn),
             fun hfe => setKey_preserve_ne (hinv.2 hfe)⟩]
        show (match specFirstSection (lowerStr (lstrip isDashOrSp (pyStrip raw))) rest with
              | some s => some s
              | none => st.first_section) =
            (match specFirstSection st.cur (raw :: rest) with
              | some s => some s
              | none => st.first_section)
        rw [specFirstSection_cons, if_neg (bool_ne_true hh),
          if_neg (bool_ne_true h0.1), if_neg (bool_ne_true h0.2), if_pos hd]
      · replace hd := Bool.eq_false_iff.mpr hd
        rw [readStep_plain hh h0.1 h0.2 hd]
        by_cases hc : 0 < curLen st ∨ pyStrip raw ≠ []
        · rw [if_pos hc]
          by_cases hcur : st.cur = []
          · have hfal2 : optFalsy (if optFalsy st.first_section = true then some st.cur
                else st.first_section) = true := by
              rw [if_pos hfal, hcur]
              rfl
            have hinv2 : ptrInv
                { mapping := appendTo st.cur (pyStrip raw) st.mapping,
                  first_section :=
                    (if optFalsy st.first_section = true then some st.cur
                     else st.first_section),
                  cur := st.cur, prev := some (pyStrip raw) } := by
              constructor
              · intro hfn
                have hfn2 : (if optFalsy st.first_section = true then some st.cur
                    else st.first_section) = none := hfn
                rw [if_pos hfal] at hfn2
                exact absurd hfn2 (Option.some_ne_none _)
              · intro _
                exact appendTo_preserve_ne hcur (ptrInv_falsy_second hinv hfal)
            rw [ih { mapping := appendTo st.cur (pyStrip raw) st.mapping,
                     first_section :=
                       (if optFalsy st.first_section = true then some st.cur
                        else st.first_section),
                     cur := st.cur, prev := some (pyStrip raw) } hrest hfal2 hinv2]
            show (match specFirstSection st.cur rest with
                  | some s => some s
                  | none =>
                      (if optFalsy st.first_section = true then some st.cur
                       else st.first_section)) =
                (match specFirstSection st.cur (raw :: rest) with
                  | some s => some s
                  | none => st.first_section)
            by_cases hline : pyStrip raw = []
            · have hor : 0 < curLen st := by
                rcases hc with h | h
                · exact h
                · exact absurd hline h
              have hfs : st.first_section = some [] := by
                rcases optFalsy_cases hfal with h | h
                · exfalso
                  rw [curLen_zero_of_empty (hinv.1 h)] at hor
                  exact absurd hor (by decide)
                · exact h
              rw [specFirstSection_cons, if_neg (bool_ne_true hh),
                if_neg (bool_ne_true h0.1), if_neg (bool_ne_true h0.2),
                if_neg (bool_ne_true hd),
                if_neg (fun hx : pyStrip raw ≠ [] => hx hline)]
              cases hx : specFirstSection st.cur rest with
              | some s => rfl
              | none =>
                show (if optFalsy st.first_section = true then some st.cur
                      else st.first_section) = st.first_section
                rw [if_pos hfal, hcur, hfs]
            · rw [specFirstSection_cons, if_neg (bool_ne_true hh),
                if_neg (bool_ne_true h0.1), if_neg (bool_ne_true h0.2),
                if_neg (bool_ne_true hd), if_pos hline,
                if_neg (fun hx : st.cur ≠ [] => hx hcur)]
              cases hx : specFirstSection st.cur rest with
              | some s => rfl
              | none =>
                show (if optFalsy st.first_section = true then some st.cur
                      else st.first_section) = some []
                rw [if_pos hfal, hcur]
          · have hlen : curLen st = 0 := by
              unfold curLen
              rw [lookup_ne_key_empty hcur (ptrInv_falsy_second hinv hfal)]
              rfl
            have hline : pyStrip raw ≠ [] := by
              rcases hc with h | h
              · rw [hlen] at h
                exact absurd h (by decide)
              · exact h
            have htr : optFalsy (if optFalsy st.first_section = true then some st.cur
                else st.first_section) = false := by
              rw [if_pos hfal]
              exact isEmpty_false_of_ne hcur
            rw [readLoop_first_truthy rest
                { mapping := appendTo st.cur (pyStrip raw) st.mapping,
                  first_section :=
                    (if optFalsy st.first_section = true then some st.cur
                     else st.first_section),
                  cur := st.cur, prev := some (pyStrip raw) } hrest htr]
            show (if optFalsy st.first_section = true then some st.cur
                  else st.first_section) =
                (match specFirstSection st.cur (raw :: rest) with
                 | some s => some s
                 | none => st.first_section)
            rw [if_pos hfal, specFirstSection_cons, if_neg (bool_ne_true hh),
              if_neg (bool_ne_true h0.1), if_neg (bool_ne_true h0.2),
              if_neg (bool_ne_true hd), if_pos hline, if_pos hcur]
        · rw [if_neg hc]
          rw [ih { mapping := st.mapping, first_section := st.first_section,
                   cur := st.cur, prev := some (pyStrip raw) } hrest hfal hinv]
          have hline : pyStrip raw = [] := by
            by_contra hne
            exact hc (Or.inr hne)
          show (match specFirstSection st.cur rest with
                | some s => some s
                | none => st.first_section) =
              (match specFirstSection st.cur (raw :: rest) with
                | some s => some s
                | none => st.first_section)
          rw [specFirstSection_cons, if_neg (bool_ne_true hh),
            if_neg (bool_ne_true h0.1), if_neg (bool_ne_true h0.2),
            if_neg (bool_ne_true hd), if_neg (fun hx => hx hline)]

theorem specFirstSection_none_iff :
    ∀ (lines : List PyStr) (cur : PyStr),
      (∀ l ∈ lines, startsWith "===".data (pyStrip l) = false ∧
        startsWith "---".data (pyStrip l) = false) →
      (specFirstSection cur lines = none ↔ ∀ l ∈ lines, isContentLine l = false) := by
  intro lines
  induction lines with
  | nil =>
    intro cur _
    constructor
    · intro _ l hl
      cases hl
    · intro _
      rfl
  | cons raw rest ih =>
    intro cur hns
    have h0 := hns raw (List.mem_cons_self raw rest)
    have hrest : ∀ l ∈ rest, startsWith "===".data (pyStrip l) = false ∧
        startsWith "---".data (pyStrip l) = false :=
      fun l hl => hns l (List.mem_cons_of_mem raw hl)
    rw [specFirstSection_cons]
    by_cases hh : startsWith "#".data (pyStrip raw) = true
    · rw [if_pos hh, ih _ hrest]
      constructor
      · intro hall l hl
        rcases List.mem_cons.mp hl with rfl | hl
        · simp [isContentLine, hh]
        · exact hall l hl
      · intro hall l hl
        exact hall l (List.mem_cons_of_mem raw hl)
    · replace hh := Bool.eq_false_iff.mpr hh
      rw [if_neg (bool_ne_true hh), if_neg (bool_ne_true h0.1),
        if_neg (bool_ne_true h0.2)]
      by_cases hd : startsWith "-".data (pyStrip raw) = true
      · rw [if_pos hd, ih _ hrest]
        constructor
        · intro hall l hl
          rcases List.mem_cons.mp hl with rfl | hl
          · simp [isContentLine, hd]
          · exact hall l hl
        · intro hall l hl
          exact hall l (List.mem_cons_of_mem raw hl)
      · replace hd := Bool.eq_false_iff.mpr hd
        rw [if_neg (bool_ne_true hd)]
        by_cases hline : pyStrip raw = []
        · rw [if_neg (fun hx => hx hline), ih _ hrest]
          constructor
          · intro hall l hl
            rcases List.mem_cons.mp hl with rfl | hl
            · simp [isContentLine, hline]
            · exact hall l hl
          · intro hall l hl
            exact hall l (List.mem_cons_of_mem raw hl)
        · rw [if_pos hline]
          constructor
          · intro hsome
            by_cases hcur : cur = []
            · rw [if_neg (fun hx => hx hcur)] at hsome
              cases hx : specFirstSection cur rest with
              | some s =>
                rw [hx] at hsome
                exact (Option.some_ne_none s hsome).elim
              | none =>
                rw [hx] at hsome
                exact (Option.some_ne_none ([] : PyStr) hsome).elim
            · rw [if_pos hcur] at hsome
              exact (Option.some_ne_none cur hsome).elim
          · intro hall
            exfalso
            have hfalse := hall raw (List.mem_cons_self raw rest)
            unfold isContentLine at hfalse
            rw [hh, hd, isEmpty_false_of_ne hline] at hfalse
            exact absurd hfalse (by decide)

/-- C7 counterexample: after the input below, `first_section` is `None`
even though section `b` received (and still holds) the non-heading,
non-empty line `y`: re-declaring heading `# A` wipes that section without
clearing `first_section`, and the final Setext underline pops the sole
line of the section recorded as first, resetting the pointer to `None`
while other sections have content.  This contradicts the claim that
`first_section` is `None` exactly when no section ever received such a
line. -/
theorem c7_counterexample :
    (readFileObj ["# A\n".data, "x\n".data, "# B\n".data, "y\n".data,
      "# A\n".data, "z\n".data, "===\n".data]).first_section = none ∧
    lookupMap (readFileObj ["# A\n".data, "x\n".data, "# B\n".data, "y\n".data,
      "# A\n".data, "z\n".data, "===\n".data]).mapping "b".data =
      some ["y".data] := by
  decide

/-- C7 amended: restricted to inputs with no Setext underline lines
(stripped lines starting with `===` or `---`), `first_section` equals the
name of the first section with a non-empty name that ever received a
non-empty appended line (heading lines not counting); when only the
empty-named section received such lines, the pointer records the empty
string, which Python truthiness treats as absent, so it stays
overwritable.  It is `None` exactly when no section received such a line.
With Setext lines present the pointer can be reset to `None` even though
other sections already received content (see the counterexample). -/
theorem c7_amended_first_section (lines : List PyStr)
    (hns : ∀ l ∈ lines, startsWith "===".data (pyStrip l) = false ∧
      startsWith "---".data (pyStrip l) = false) :
    (readFileObj lines).first_section = specFirstSection defaultKey lines ∧
    ((readFileObj lines).first_section = none ↔
      ∀ l ∈ lines, isContentLine l = false) := by
  have hinv : ptrInv rsInit := by
    constructor
    · intro _ kv hkv
      rcases List.mem_singleton.mp hkv with rfl
      rfl
    · intro h
      exact Option.noConfusion h
  have h1 := readLoop_first_falsy lines rsInit hns rfl hinv
  have h2 : (readFileObj lines).first_section = (readLoop rsInit lines).first_section :=
    rfl
  have hid : (match specFirstSection defaultKey lines with
        | some s => some s
        | none => (none : Option PyStr)) = specFirstSection defaultKey lines := by
    cases specFirstSection defaultKey lines with
    | some s => rfl
    | none => rfl
  constructor
  · rw [h2, h1]
    exact hid
  · rw [h2, h1]
    show ((match specFirstSection defaultKey lines with
          | some s => some s
          | none => (none : Option PyStr)) = none ↔
        ∀ l ∈ lines, isContentLine l = false)
    rw [hid]
    exact specFirstSection_none_iff lines defaultKey hns

/-- Witness for the amended C7 at a concrete input. -/
theorem c7_amended_first_section_witness :
    (readFileObj ["# Over\n".data, "Body\n".data]).first_section =
      specFirstSection defaultKey ["# Over\n".data, "Body\n".data] :=
  (c7_amended_first_section ["# Over\n".data, "Body\n".data] (by decide)).1

/-! ### `Readme.find_matching` (app.py lines 823-845, C3) -/

def overviewKey : PyStr := "overview".data

/-- The `for section in self.mapping.keys()` scan: first section (in
insertion order) whose similarity to `key` exceeds the threshold. -/
def firstMatch (key : PyStr) : RMap → Option (List PyStr)
  | [] => none
  | (name, v) :: rest => if ratioGT key name = true then some v else firstMatch key rest

/-- `find_matching`; the `if self.first_section:` fallback guard is Python
truthiness, so both `None` and the recorded empty string fall through to
the default section.  The result is `none` exactly when Python would
raise `KeyError` on a fallback lookup of a missing key (which cannot
happen for a `Readme` built by `read_file_obj`, whose `(default)` key
always exists). -/
def findMatching (r : RM) (mod_name : PyStr) (single_mod : Bool) : Option (List PyStr) :=
  match single_mod with
  | true =>
    match lookupMap r.mapping overviewKey with
    | some v => some v
    | none =>
      match firstMatch (lowerStr mod_name) r.mapping with
      | some v => some v
      | none =>
        if optFalsy r.first_section = false then
          lookupMap r.mapping (r.first_section.getD [])
        else lookupMap r.mapping defaultKey
  | false =>
    match firstMatch (lowerStr mod_name) r.mapping with
    | some v => some v
    | none => some []

example :
    findMatching
      { mapping := [(defaultKey, ["d".data]), ([], ["x".data])],
        first_section := some [] } "zzzzz".data true = some ["d".data] := by
  decide

theorem firstMatch_cons (key name : PyStr) (v : List PyStr) (m : RMap) :
    firstMatch key ((name, v) :: m) =
      if ratioGT key name = true then some v else firstMatch key m := rfl

theorem firstMatch_prepend_nomatch (key : PyStr) :
    ∀ (pre : RMap) (m : RMap), (∀ kv ∈ pre, ratioGT key kv.1 = false) →
      firstMatch key (pre ++ m) = firstMatch key m := by
  intro pre
  induction pre with
  | nil => intro m _; rfl
  | cons p rest ih =>
    obtain ⟨name, v⟩ := p
    intro m hall
    show firstMatch key ((name, v) :: (rest ++ m)) = firstMatch key m
    rw [firstMatch_cons,
      if_neg (bool_ne_true (hall (name, v) (List.mem_cons_self _ _)))]
    exact ih m (fun q hq => hall q (List.mem_cons_of_mem _ hq))

theorem firstMatch_cons_match {key name : PyStr} {v : List PyStr} {m : RMap}
    (h : ratioGT key name = true) : firstMatch key ((name, v) :: m) = some v := by
  unfold firstMatch
  rw [if_pos h]

theorem firstMatch_all_none {key : PyStr} :
    ∀ {m : RMap}, (∀ kv ∈ m, ratioGT key kv.1 = false) → firstMatch key m = none := by
  intro m
  induction m with
  | nil => intro _; rfl
  | cons p rest ih =>
    obtain ⟨name, v⟩ := p
    intro hall
    rw [firstMatch_cons,
      if_neg (bool_ne_true (hall (name, v) (List.mem_cons_self _ _)))]
    exact ih (fun q hq => hall q (List.mem_cons_of_mem _ hq))

theorem firstMatch_none_all {key : PyStr} :
    ∀ {m : RMap}, firstMatch key m = none → ∀ kv ∈ m, ratioGT key kv.1 = false := by
  intro m
  induction m with
  | nil => intro _ kv hkv; cases hkv
  | cons p rest ih =>
    obtain ⟨name, v⟩ := p
    intro h kv hkv
    rw [firstMatch_cons] at h
    by_cases hr : ratioGT key name = true
    · rw [if_pos hr] at h
      exact (Option.some_ne_none _ h).elim
    · rw [if_neg hr] at h
      rcases List.mem_cons.mp hkv with rfl | hkv
      · exact Bool.eq_false_iff.mpr hr
      · exact ih h kv hkv

theorem firstMatch_some_split {key : PyStr} :
    ∀ {m : RMap} {v : List PyStr}, firstMatch key m = some v →
      ∃ pre name post, m = pre ++ (name, v) :: post ∧ ratioGT key name = true ∧
        ∀ kv ∈ pre, ratioGT key kv.1 = false := by
  intro m
  induction m with
  | nil => intro v h; cases h
  | cons p rest ih =>
    obtain ⟨name, v'⟩ := p
    intro v h
    rw [firstMatch_cons] at h
    by_cases hr : ratioGT key name = true
    · rw [if_pos hr] at h
      refine ⟨[], name, rest, ?_, hr, ?_⟩
      · injection h with hv
        rw [hv]
        rfl
      · intro kv hkv
        cases hkv
    · rw [if_neg hr] at h
      obtain ⟨pre, name2, post, hmeq, hr2, hpre⟩ := ih h
      refine ⟨(name, v') :: pre, name2, post, ?_, hr2, ?_⟩
      · rw [hmeq]
        rfl
      · intro kv hkv
        rcases List.mem_cons.mp hkv with rfl | hkv
        · exact Bool.eq_false_iff.mpr hr
        · exact hpre kv hkv

/-- C3: with `single_mod` a literally-named `overview` section is returned
for every title; otherwise the first section (in insertion order) whose
ratio against the lower-cased title strictly exceeds 0.8; otherwise the
`first_section` fallback when the pointer is truthy (it records a name
that is not the empty string), and the default section when the pointer
is `None` or the falsy empty string.  Without `single_mod` the result is
a strict-ratio match or the empty sequence - never the overview special
case or any fallback. -/
theorem c3_find_matching :
    (∀ (r : RM) (t : PyStr) (v : List PyStr),
      lookupMap r.mapping overviewKey = some v → findMatching r t true = some v) ∧
    (∀ (r : RM) (t : PyStr) (pre post : RMap) (name : PyStr) (v : List PyStr),
      lookupMap r.mapping overviewKey = none →
      r.mapping = pre ++ (name, v) :: post →
      (∀ kv ∈ pre, ratioGT (lowerStr t) kv.1 = false) →
      ratioGT (lowerStr t) name = true →
      findMatching r t true = some v) ∧
    (∀ (r : RM) (t : PyStr) (fs : PyStr),
      lookupMap r.mapping overviewKey = none →
      (∀ kv ∈ r.mapping, ratioGT (lowerStr t) kv.1 = false) →
      r.first_section = some fs → fs ≠ [] →
      findMatching r t true = lookupMap r.mapping fs) ∧
    (∀ (r : RM) (t : PyStr),
      lookupMap r.mapping overviewKey = none →
      (∀ kv ∈ r.mapping, ratioGT (lowerStr t) kv.1 = false) →
      (r.first_section = none ∨ r.first_section = some []) →
      findMatching r t true = lookupMap r.mapping defaultKey) ∧
    (∀ (r : RM) (t : PyStr),
      (∃ pre post name v, r.mapping = pre ++ (name, v) :: post ∧
        ratioGT (lowerStr t) name = true ∧
        (∀ kv ∈ pre, ratioGT (lowerStr t) kv.1 = false) ∧
        findMatching r t false = some v) ∨
      ((∀ kv ∈ r.mapping, ratioGT (lowerStr t) kv.1 = false) ∧
        findMatching r t false = some [])) := by
  refine ⟨?_, ?_, ?_, ?_, ?_⟩
  · intro r t v hov
    unfold findMatching
    rw [hov]
  · intro r t pre post name v hov hmap hpre hmatch
    have hfm : firstMatch (lowerStr t) r.mapping = some v := by
      rw [hmap, firstMatch_prepend_nomatch (lowerStr t) pre _ hpre,
        firstMatch_cons_match hmatch]
    unfold findMatching
    rw [hov, hfm]
  · intro r t fs hov hall hfs hne
    have hfm : firstMatch (lowerStr t) r.mapping = none := firstMatch_all_none hall
    have hcond : optFalsy r.first_section = false := by
      rw [hfs]
      exact isEmpty_false_of_ne hne
    unfold findMatching
    rw [hov, hfm, if_pos hcond, hfs]
    rfl
  · intro r t hov hall hfs
    have hfm : firstMatch (lowerStr t) r.mapping = none := firstMatch_all_none hall
    have hcond : ¬ (optFalsy r.first_section = false) := by
      rcases hfs with h | h
      · rw [h]
        decide
      · rw [h]
        decide
    unfold findMatching
    rw [hov, hfm, if_neg hcond]
  · intro r t
    cases hfm : firstMatch (lowerStr t) r.mapping with
    | some v =>
      left
      obtain ⟨pre, name, post, hmeq, hr, hpre⟩ := firstMatch_some_split hfm
      refine ⟨pre, post, name, v, hmeq, hr, hpre, ?_⟩
      unfold findMatching
      rw [hfm]
    | none =>
      right
      refine ⟨firstMatch_none_all hfm, ?_⟩
      unfold findMatching
      rw [hfm]

/-- Witness for C3 at a concrete input: `overview` wins regardless of the
title. -/
theorem c3_find_matching_witness :
    findMatching
      { mapping := [("overview".data, ["x".data]), ("foo".data, ["y".data])],
        first_section := none } "Totally Different".data true = some ["x".data] :=
  c3_find_matching.1
    { mapping := [("overview".data, ["x".data]), ("foo".data, ["y".data])],
      first_section := none } "Totally Different".data ["x".data] (by decide)

/-! ### Orchestrator mutations and the cache status (C8)

`Cacheable` defines the four statuses; every setter runs the same guard:
on a value change, `if self.status != S_NEW: self.status = S_UPDATED`
(in `set_urls`/`update_readme_desc`/`update_changelog` the `!= S_NEW`
test is folded into the change condition and the assignment is
unconditional). -/

inductive CStatus
  | unknown
  | cached
  | new
  | updated
  deriving DecidableEq, Repr

/-- The status assignment every setter performs on a changed value. -/
def bump : CStatus → CStatus
  | CStatus.new => CStatus.new
  | _ => CStatus.updated

theorem bump_new {s : CStatus} (h : s = CStatus.new) : bump s = CStatus.new := by
  rw [h]
  rfl

theorem bump_of_cached {s : CStatus} (h : s = CStatus.cached) :
    bump s = CStatus.updated := by
  rw [h]
  rfl

theorem bump_cached_or (s : CStatus) :
    bump s = CStatus.cached ∨ bump s = CStatus.updated ∨ bump s = CStatus.new := by
  cases s <;> simp [bump]

theorem bump_ne_cached (s : CStatus) : bump s ≠ CStatus.cached := by
  cases s <;> decide

/-- `ModURL.__eq__` (app.py lines 363-370): the `url` emptiness guards are
subsumed by the final field comparison, kept for fidelity. -/
def modUrlEq (a b : ModURL) : Bool :=
  if a.url ≠ [] ∧ b.url = [] then false
  else if b.url ≠ [] ∧ a.url = [] then false
  else decide (a.url = b.url) && decide (a.text = b.text)

/-- Python `!=` between optional `ModURL`s (None is equal only to None). -/
def optUrlEq : Option ModURL → Option ModURL → Bool
  | none, none => true
  | some a, some b => modUrlEq a b
  | _, _ => false

/-- Python list equality with `ModURL.__eq__` elementwise. -/
def listUrlEq : List ModURL → List ModURL → Bool
  | [], [] => true
  | a :: as, b :: bs => modUrlEq a b && listUrlEq as bs
  | _, _ => false

/-- Python string `<` (code-point lexicographic). -/
def lexLt : PyStr → PyStr → Bool
  | [], [] => false
  | [], _ :: _ => true
  | _ :: _, [] => false
  | a :: as, b :: bs => if a = b then lexLt as bs else decide (a.val < b.val)

def insertSorted (x : PyStr) : List PyStr → List PyStr
  | [] => [x]
  | y :: r => if lexLt x y then x :: y :: r else y :: insertSorted x r

/-- Python `sorted` on strings (stable ascending sort). -/
def sortStrs : List PyStr → List PyStr
  | [] => []
  | x :: r => insertSorted x (sortStrs r)

/-- Python set equality of the category sets. -/
def setEqStrs (a b : List PyStr) : Prop := (∀ x ∈ a, x ∈ b) ∧ (∀ x ∈ b, x ∈ a)

instance (a b : List PyStr) : Decidable (setEqStrs a b) := by
  unfold setEqStrs
  infer_instance

/-- Python `str.endswith`. -/
def endsW (suf s : PyStr) : Bool := startsWith suf.reverse s.reverse

/-- The URL classification of `set_urls` (app.py lines 552-566); a later
nexus URL overwrites an earlier one. -/
structure UrlSort where
  nexus : Option ModURL
  shots : List ModURL
  tube : List ModURL
  rest : List ModURL
  deriving DecidableEq, Repr

def classifyStep (acc : UrlSort) (url : PyStr) : UrlSort :=
  if containsSub "nexusmods.com".data (lowerStr url) = true then
    { acc with nexus := some (mkModURL url) }
  else if containsSub "youtube.com".data (lowerStr url) = true ∨
      containsSub "youtu.be".data (lowerStr url) = true then
    { acc with tube := acc.tube ++ [mkModURL url] }
  else if endsW ".jpg".data (lowerStr url) = true ∨
      endsW ".png".data (lowerStr url) = true ∨
      endsW ".gif".data (lowerStr url) = true then
    { acc with shots := acc.shots ++ [mkModURL url] }
  else { acc with rest := acc.rest ++ [mkModURL url] }

def classifyUrls (urls : List PyStr) : UrlSort :=
  urls.foldl classifyStep { nexus := none, shots := [], tube := [], rest := [] }

/-- The orchestrator-facing slice of the `ModFile` record. -/
structure MF2 where
  status : CStatus
  seen : Bool
  categories : List PyStr
  mod_title_display : Option PyStr
  wiki_filename_base : Option PyStr
  related_links : List PyStr
  nexus_link : Option ModURL
  screenshots : List ModURL
  youtube_urls : List ModURL
  urls : List ModURL
  readme_desc : List PyStr
  readme_rel : Option PyStr
  changelog : List PyStr
  deriving DecidableEq, Repr

/-- The seven orchestrator mutations of C8.  `setRelatedLinks` takes the
related mods as `(wiki_link, author)` pairs; `updateReadmeDesc` takes the
readme as its relative filename (or `none`). -/
inductive Mutation
  | setCategories (cats : List PyStr)
  | setTitleDisplay (t : Option PyStr)
  | setWikiFilenameBase (b : Option PyStr)
  | setRelatedLinks (mods : List (PyStr × PyStr))
  | setUrls (urls : List PyStr)
  | updateReadmeDesc (readme : Option PyStr) (desc : List PyStr)
  | updateChangelog (cl : List PyStr)

/-- The `'{}, by {}'.format(...)` link text of `set_related_links`. -/
def fmtRelated (m : PyStr × PyStr) : PyStr := m.1 ++ ", by ".data ++ m.2

/-- The setters of app.py lines 503-602, one step each. -/
def applyMut (st : MF2) (mu : Mutation) : MF2 :=
  match mu with
  | Mutation.setCategories cats =>
    if ¬ setEqStrs cats.dedup st.categories then
      { st with seen := true, status := bump st.status, categories := cats.dedup }
    else { st with seen := true }
  | Mutation.setTitleDisplay t =>
    if t ≠ st.mod_title_display then
      { st with seen := true, status := bump st.status, mod_title_display := t }
    else { st with seen := true }
  | Mutation.setWikiFilenameBase b =>
    if b ≠ st.wiki_filename_base then
      { st with seen := true, status := bump st.status, wiki_filename_base := b }
    else { st with seen := true }
  | Mutation.setRelatedLinks mods =>
    if sortStrs (mods.map fmtRelated) ≠ st.related_links then
      { st with status := bump st.status,
                related_links := sortStrs (mods.map fmtRelated) }
    else st
  | Mutation.setUrls urls =>
    if st.status ≠ CStatus.new ∧
        ¬ (optUrlEq (classifyUrls urls).nexus st.nexus_link = true ∧
           listUrlEq (classifyUrls urls).shots st.screenshots = true ∧
           listUrlEq (classifyUrls urls).tube st.youtube_urls = true ∧
           listUrlEq (classifyUrls urls).rest st.urls = true) then
      { st with seen := true,
                status := CStatus.updated,
                nexus_link := (classifyUrls urls).nexus,
                screenshots := (classifyUrls urls).shots,
                youtube_urls := (classifyUrls urls).tube,
                urls := (classifyUrls urls).rest }
    else
      { st with seen := true,
                nexus_link := (classifyUrls urls).nexus,
                screenshots := (classifyUrls urls).shots,
                youtube_urls := (classifyUrls urls).tube,
                urls := (classifyUrls urls).rest }
  | Mutation.updateReadmeDesc readme desc =>
    if st.status ≠ CStatus.new ∧ (desc ≠ st.readme_desc ∨ readme ≠ st.readme_rel) then
      { st with seen := true,
                status := CStatus.updated,
                readme_desc := desc,
                readme_rel := readme }
    else
      { st with seen := true,
                readme_desc := desc,
                readme_rel := readme }
  | Mutation.updateChangelog cl =>
    if st.status ≠ CStatus.new ∧ cl ≠ st.changelog then
      { st with seen := true, status := CStatus.updated, changelog := cl }
    else { st with seen := true, changelog := cl }

/-- C8: every orchestrator mutation moves the cache status only forward:
`new` stays `new`, `cached` stays `cached` or becomes `updated`, and no
mutation ever produces `cached` from anything else. -/
theorem c8_status_forward (st : MF2) (mu : Mutation) :
    (st.status = CStatus.new → (applyMut st mu).status = CStatus.new) ∧
    (st.status = CStatus.cached →
      (applyMut st mu).status = CStatus.cached ∨
        (applyMut st mu).status = CStatus.updated) ∧
    ((applyMut st mu).status = CStatus.cached → st.status = CStatus.cached) := by
  cases mu with
  | setCategories cats =>
    simp only [applyMut]
    refine ⟨?_, ?_, ?_⟩
    · intro h
      split_ifs <;> first | exact bump_new h | exact h
    · intro h
      split_ifs <;> first | exact Or.inl h | exact Or.inr (bump_of_cached h)
    · split_ifs <;>
        first
          | exact fun h2 => absurd h2 (bump_ne_cached st.status)
          | exact fun h2 => h2
  | setTitleDisplay t =>
    simp only [applyMut]
    refine ⟨?_, ?_, ?_⟩
    · intro h
      split_ifs <;> first | exact bump_new h | exact h
    · intro h
      split_ifs <;> first | exact Or.inl h | exact Or.inr (bump_of_cached h)
    · split_ifs <;>
        first
          | exact fun h2 => absurd h2 (bump_ne_cached st.status)
          | exact fun h2 => h2
  | setWikiFilenameBase b =>
    simp only [applyMut]
    refine ⟨?_, ?_, ?_⟩
    · intro h
      split_ifs <;> first | exact bump_new h | exact h
    · intro h
      split_ifs <;> first | exact Or.inl h | exact Or.inr (bump_of_cached h)
    · split_ifs <;>
        first
          | exact fun h2 => absurd h2 (bump_ne_cached st.status)
          | exact fun h2 => h2
  | setRelatedLinks mods =>
    simp only [applyMut]
    refine ⟨?_, ?_, ?_⟩
    · intro h
      split_ifs <;> first | exact bump_new h | exact h
    · intro h
      split_ifs <;> first | exact Or.inl h | exact Or.inr (bump_of_cached h)
    · split_ifs <;>
        first
          | exact fun h2 => absurd h2 (bump_ne_cached st.status)
          | exact fun h2 => h2
  | setUrls urls =>
    simp only [applyMut]
    refine ⟨?_, ?_, ?_⟩
    · intro h
      split_ifs with hc
      all_goals first | exact h | exact absurd h hc.1
    · intro h
      split_ifs with hc
      all_goals first | exact Or.inl h | exact Or.inr rfl
    · split_ifs with hc
      all_goals first | exact fun h2 => h2 | exact fun h2 => absurd h2 (by decide)
  | updateReadmeDesc readme desc =>
    simp only [applyMut]
    refine ⟨?_, ?_, ?_⟩
    · intro h
      split_ifs with hc
      all_goals first | exact h | exact absurd h hc.1
    · intro h
      split_ifs with hc
      all_goals first | exact Or.inl h | exact Or.inr rfl
    · split_ifs with hc
      all_goals first | exact fun h2 => h2 | exact fun h2 => absurd h2 (by decide)
  | updateChangelog cl =>
    simp only [applyMut]
    refine ⟨?_, ?_, ?_⟩
    · intro h
      split_ifs with hc
      all_goals first | exact h | exact absurd h hc.1
    · intro h
      split_ifs with hc
      all_goals first | exact Or.inl h | exact Or.inr rfl
    · split_ifs with hc
      all_goals first | exact fun h2 => h2 | exact fun h2 => absurd h2 (by decide)

def mf2Cached : MF2 :=
  { status := CStatus.cached, seen := false, categories := [],
    mod_title_display := none, wiki_filename_base := none, related_links := [],
    nexus_link := none, screenshots := [], youtube_urls := [], urls := [],
    readme_desc := [], readme_rel := none, changelog := [] }

/-- Witness for C8 at a concrete input: a cached record stays cached or
becomes updated. -/
theorem c8_status_forward_witness :
    (applyMut mf2Cached (Mutation.setTitleDisplay (some "T".data))).status =
      CStatus.cached ∨
    (applyMut mf2Cached (Mutation.setTitleDisplay (some "T".data))).status =
      CStatus.updated :=
  (c8_status_forward mf2Cached (Mutation.setTitleDisplay (some "T".data))).2.1 rfl
